import Mathlib

/-!
Shallow embedding of the pull-request comment automation scripts
(`.github/scripts/post_pr_summar.py`, `.github/scripts/comment_on_push.py`
and the workflow copy `.github/workflows/comment_on_push.py`):
the transport client's retry loop, the paginator, PR resolution,
the comment reconciler (marker-based upsert) and the summary formatter.
Machine integers are modelled as `Nat`/`Int`; HTTP traffic is modelled as an
explicit per-attempt response sequence; the comment store is a list of
comments in creation order.
-/

namespace PRBot

/-- What one HTTP attempt returns, as seen by `gh_api`:
a parsed success, an `urllib.error.HTTPError` with a status code,
or an `urllib.error.URLError` (low-level network failure). -/
inductive Resp where
  | ok : Resp
  | httpError (code : Nat) : Resp
  | netError : Resp
  deriving DecidableEq, Repr

/-- The observable outcome of a `gh_api` call: a successful return on some
attempt, a raised `HTTPError` carrying the attempt number and status code,
a raised `URLError`, or the `for` loop ending without any attempt
(Python then falls off the function, returning `None`). -/
inductive Outcome where
  | success (attempts : Nat) : Outcome
  | raisedHttp (attempts code : Nat) : Outcome
  | raisedNet (attempts : Nat) : Outcome
  | loopEnded : Outcome
  deriving DecidableEq, Repr

/-- The retry loop of `gh_api` (`for attempt in range(1, max_retries + 1)`),
parametrised by the script's retryability test on HTTP status codes.
`resp attempt` is the response observed on that attempt; `fuel` counts the
loop iterations still allowed (it starts at `maxRetries`, so the loop body
runs for attempts `1 .. maxRetries` exactly as in the source). -/
def ghApiGo (retryable : Nat → Bool) (resp : Nat → Resp) (maxRetries : Nat) :
    Nat → Nat → Outcome
  | _, 0 => Outcome.loopEnded
  | attempt, fuel + 1 =>
    match resp attempt with
    | Resp.ok => Outcome.success attempt
    | Resp.httpError c =>
      if !retryable c || attempt == maxRetries then Outcome.raisedHttp attempt c
      else ghApiGo retryable resp maxRetries (attempt + 1) fuel
    | Resp.netError =>
      if attempt == maxRetries then Outcome.raisedNet attempt
      else ghApiGo retryable resp maxRetries (attempt + 1) fuel

/-- `post_pr_summar.py` line 40: `retry = 500 <= e.code < 600`. -/
def retryableSummary (c : Nat) : Bool := decide (500 ≤ c) && decide (c < 600)

/-- `comment_on_push.py` line 51: `is_retryable = e.code >= 500`. -/
def retryablePush (c : Nat) : Bool := decide (500 ≤ c)

/-- `gh_api` of `post_pr_summar.py` run against a response sequence. -/
def gh_api_summary (resp : Nat → Resp) (maxRetries : Nat) : Outcome :=
  ghApiGo retryableSummary resp maxRetries 1 maxRetries

/-- `gh_api` of `comment_on_push.py` run against a response sequence. -/
def gh_api_push (resp : Nat → Resp) (maxRetries : Nat) : Outcome :=
  ghApiGo retryablePush resp maxRetries 1 maxRetries

/-- A finite response schedule: attempt `n` (1-based) observes the `n`-th
entry of the list; attempts beyond the list succeed. -/
def respSeq (l : List Resp) (attempt : Nat) : Resp := l.getD (attempt - 1) Resp.ok

/-- The forge's offset pagination: `per_page=100&page=p` returns the `p`-th
hundred of the underlying collection (1-based pages). -/
def servePage {α : Type*} (items : List α) (page : Nat) : List α :=
  (items.drop ((page - 1) * 100)).take 100

/-- The `while True` loop of `paginate` in `post_pr_summar.py` (and the
inlined copy in `find_open_pr_for_branch_or_sha`): fetch a page, stop on an
empty page, emit its items, stop when the page is shorter than 100,
otherwise advance the page counter. `fuel` bounds the loop iterations;
`paginate` supplies enough fuel for the whole collection. -/
def paginateAux {α : Type*} (items : List α) : Nat → Nat → List α
  | _, 0 => []
  | page, fuel + 1 =>
    let data := servePage items page
    if data.length = 0 then []
    else if data.length < 100 then data
    else data ++ paginateAux items (page + 1) fuel

/-- All items produced by the pagination loop, starting at page 1. -/
def paginate {α : Type*} (items : List α) : List α :=
  paginateAux items 1 (items.length / 100 + 1)

/-- The sequence of page numbers the pagination loop requests. -/
def paginatePagesAux {α : Type*} (items : List α) : Nat → Nat → List Nat
  | _, 0 => []
  | page, fuel + 1 =>
    let data := servePage items page
    if data.length = 0 then [page]
    else if data.length < 100 then [page]
    else page :: paginatePagesAux items (page + 1) fuel

/-- Page numbers requested by a full pagination run, starting at page 1. -/
def paginatePages {α : Type*} (items : List α) : List Nat :=
  paginatePagesAux items 1 (items.length / 100 + 1)

/-- The fields of an open pull request that PR resolution looks at. -/
structure PRInfo where
  number : Nat
  headSha : String
  headRef : String
  deriving DecidableEq, Repr

/-- The search half of `find_open_pr_for_branch_or_sha`: prefer the first
open PR whose head commit SHA matches, else the first whose head branch
name matches, else `none`. -/
def searchPRs (prs : List PRInfo) (sha branch : String) : Option Nat :=
  match prs.find? (fun p => p.headSha == sha) with
  | some p => some p.number
  | none => (prs.find? (fun p => p.headRef == branch)).map PRInfo.number

/-- Python whitespace recognised by `str.split()` with no separator
(space, tab, linefeed, carriage return, vertical tab, form feed). -/
def pyWhitespace (ch : Char) : Bool :=
  ch == ' ' || ch == '\t' || ch == '\n' || ch == '\r' || ch == '\x0B' || ch == '\x0C'

/-- Strip leading and trailing whitespace, as `int(...)` does before
parsing. -/
def pyStrip (cs : List Char) : List Char :=
  ((cs.dropWhile pyWhitespace).reverse.dropWhile pyWhitespace).reverse

/-- Valid digit part of a Python integer literal after the optional sign:
nonempty groups of ASCII decimal digits separated by single underscores
(`int("1_0")` parses, `int("_1")`, `int("1_")`, `int("1__0")` do not). -/
def digitGroupsOk (cs : List Char) : Bool :=
  (cs.splitOn '_').all (fun g => !g.isEmpty && g.all Char.isDigit)

/-- Decimal value of a digit list. -/
def digitsVal (cs : List Char) : Nat :=
  cs.foldl (fun a c => a * 10 + (c.toNat - 48)) 0

/-- Model of Python's `int(s)` on a decimal string: strip whitespace,
accept an optional sign followed by underscore-grouped ASCII digits,
otherwise raise `ValueError` (here: `none`). -/
def int_of_py (s : String) : Option Int :=
  match pyStrip s.data with
  | [] => none
  | c :: rest =>
    if c == '+' then
      if digitGroupsOk rest then
        some (Int.ofNat (digitsVal (rest.filter (fun d => d != '_'))))
      else none
    else if c == '-' then
      if digitGroupsOk rest then
        some (-Int.ofNat (digitsVal (rest.filter (fun d => d != '_'))))
      else none
    else
      if digitGroupsOk (c :: rest) then
        some (Int.ofNat (digitsVal ((c :: rest).filter (fun d => d != '_'))))
      else none

/-- How `find_open_pr_for_branch_or_sha` arrived at its answer: via the
`GITHUB_PR_NUMBER` fast path (no API call), or via the search over the
open pull requests fetched from the API. -/
inductive Resolution where
  | hint (n : Int) : Resolution
  | search (r : Option Nat) : Resolution
  deriving DecidableEq, Repr

/-- `find_open_pr_for_branch_or_sha` of `comment_on_push.py`: if the
`GITHUB_PR_NUMBER` environment hint is set and nonempty, try `int(...)` on
it and return that number directly; on `ValueError` fall through silently
to the paginated search over open PRs (SHA match first, then branch). -/
def find_open_pr_for_branch_or_sha (prNumberEnv : Option String)
    (prs : List PRInfo) (sha branch : String) : Resolution :=
  match prNumberEnv with
  | some s =>
    if s != "" then
      match int_of_py s with
      | some n => Resolution.hint n
      | none => Resolution.search (searchPRs prs sha branch)
    else Resolution.search (searchPRs prs sha branch)
  | none => Resolution.search (searchPRs prs sha branch)

/-- The PR number `main` sees (`None` when the search found nothing). -/
def resolutionValue : Resolution → Option Int
  | Resolution.hint n => some n
  | Resolution.search r => r.map Int.ofNat

/-- What a run of `comment_on_push.py`'s `main` does: skip benignly
(printing and returning normally, exit 0) or post a comment on a PR. -/
inductive PushResult where
  | skipped : PushResult
  | commented (pr : Int) : PushResult
  deriving DecidableEq, Repr

/-- `main` of `comment_on_push.py`: resolve the PR; `if not pr_number:`
(i.e. `None` or `0`) print a skip line and return, else comment. -/
def comment_on_push_main (prNumberEnv : Option String) (prs : List PRInfo)
    (sha branch : String) : PushResult :=
  match resolutionValue (find_open_pr_for_branch_or_sha prNumberEnv prs sha branch) with
  | none => PushResult.skipped
  | some n => if n == 0 then PushResult.skipped else PushResult.commented n

/-- Size classification of `format_summary`: start from `"🟩 small"` and
override through the `if`/`elif` chain on `additions + deletions`. -/
def size_label (additions deletions : Nat) : String :=
  let total_delta := additions + deletions
  if total_delta > 1000 then "🟥 huge"
  else if total_delta > 500 then "🟧 large"
  else if total_delta > 200 then "🟨 medium"
  else "🟩 small"

/-- The two commit fields the formatter reads: full SHA and message. -/
structure CommitInfo where
  sha : String
  message : String
  deriving DecidableEq, Repr

/-- Line boundaries recognised by Python's `str.splitlines`. -/
def pyLineBreak (ch : Char) : Bool :=
  ch == '\n' || ch == '\r' || ch == '\x0B' || ch == '\x0C' ||
  ch == '\x1C' || ch == '\x1D' || ch == '\x1E' || ch == '\x85' ||
  ch == '\u2028' || ch == '\u2029'

/-- `msg.splitlines()[0]` for a nonempty `msg`: everything before the first
line boundary. -/
def firstLine (msg : String) : String :=
  String.mk (msg.data.takeWhile (fun ch => !pyLineBreak ch))

/-- One rendered entry of the recent-commits section: 7-character short
SHA plus the first line of the message, with the `"(no message)"`
placeholder substituted when the message is the empty string. -/
def commit_entry (c : CommitInfo) : String :=
  let sha7 := c.sha.take 7
  let msg := if c.message == "" then "(no message)" else c.message
  "- `" ++ sha7 ++ "` " ++ firstLine msg

/-- `for c in reversed(commits[-10:])` of `format_summary`: the last ten
commits, reversed to most-recent-first, each rendered by `commit_entry`. -/
def recent_commits (commits : List CommitInfo) : List String :=
  ((commits.drop (commits.length - 10)).reverse).map commit_entry

/-- The file fields the formatter reads. -/
structure FileChange where
  filename : String
  status : String
  additions : Nat
  deletions : Nat
  deriving DecidableEq, Repr

/-- The ranking key: combined additions + deletions of a file. -/
def changeCount (f : FileChange) : Nat := f.additions + f.deletions

/-- `file_summaries.sort(reverse=True, key=lambda x: x[0])`: Python's
`list.sort` is a stable sort; with `reverse=True` it orders by the key
descending while ties keep their original relative order. A stable sort
under a total preorder is unique as a function of its input, so the
stable `insertionSort` under the reversed comparison is exactly it. -/
def sortFilesDesc (files : List FileChange) : List FileChange :=
  files.insertionSort (fun a b => changeCount b ≤ changeCount a)

/-- One rendered entry of the most-changed-files section. -/
def file_entry (f : FileChange) : String :=
  "- `" ++ f.filename ++ "` (" ++ f.status ++ ", +" ++ toString f.additions ++
    "/-" ++ toString f.deletions ++ ")"

/-- `file_summaries[:10]` after the descending stable sort, rendered. -/
def top_files (files : List FileChange) : List String :=
  ((sortFilesDesc files).take 10).map file_entry

/-- Python `s.split()` with no separator: split on whitespace runs,
discarding empty fields. -/
def pySplit (s : String) : List String :=
  ((s.data.splitOnP pyWhitespace).filter (fun g => !g.isEmpty)).map String.mk

/-- The token test of the linked-issues scan:
`token.startswith("#") and token[1:].isdigit()` (ASCII digits; `isdigit`
is false on the empty string). -/
def isIssueToken (t : String) : Bool :=
  match t.data with
  | [] => false
  | c :: rest => c == '#' && !rest.isEmpty && rest.all Char.isDigit

/-- `body.replace("\n", " ")`: with a single-character pattern and
replacement, Python's `str.replace` is a character-wise substitution. -/
def pyReplaceNl (s : String) : String :=
  String.mk (s.data.map (fun c => if c = '\n' then ' ' else c))

/-- Lexicographic code-point comparison of character lists — the string
order Python's `sorted` uses. -/
def lexLe : List Char → List Char → Bool
  | [], _ => true
  | _ :: _, [] => false
  | a :: as, b :: bs => if a < b then true else if b < a then false else lexLe as bs

/-- Lexicographic order on strings, by code points. -/
def strLe (a b : String) : Bool := lexLe a.data b.data

/-- The linked-issues scan of `format_summary`: replace newlines by
spaces, split on whitespace, keep the `#digits` tokens, deduplicate
(Python collects them into a `set`) and sort lexicographically
(`sorted(linked)` — a sort of distinct keys, so any sort realises it). -/
def extract_linked (body : String) : List String :=
  let tokens := pySplit (pyReplaceNl body)
  ((tokens.filter isIssueToken).dedup).insertionSort (fun a b => strLe a b = true)

/-- A stored issue comment: server id and body, listed in creation
order. -/
structure Comment where
  id : Nat
  body : String
  deriving DecidableEq, Repr

/-- The hidden marker identifying the managed summary comment. -/
def MARKER : String := "<!-- pr-summary-bot -->"

/-- Python's `MARKER in body`: substring containment. -/
def containsMarker (body : String) : Bool := decide (MARKER.data <:+: body.data)

/-- `find_existing_summary_comment`: scan the comment list in reverse
(most recent first) for the first body containing the marker; return its
id. -/
def find_existing_summary_comment (comments : List Comment) : Option Nat :=
  (comments.reverse.find? (fun c => containsMarker c.body)).map Comment.id

/-- Server effect of `create_comment` (POST): a fresh comment (with a
fresh server id) is appended to the list. -/
def create_comment (comments : List Comment) (newId : Nat) (body : String) :
    List Comment :=
  comments ++ [⟨newId, body⟩]

/-- Server effect of `update_comment` (PATCH): the body of the comment
with the given id is replaced wholesale. -/
def update_comment (comments : List Comment) (cid : Nat) (body : String) :
    List Comment :=
  comments.map (fun c => if c.id = cid then ⟨c.id, body⟩ else c)

/-- Which branch `main` took. -/
inductive UpsertAction where
  | created : UpsertAction
  | updated : UpsertAction
  deriving DecidableEq, Repr

/-- The reconciliation step of `main` in `post_pr_summar.py`: look for an
existing marker comment and test `if existing_id:` — Python truthiness,
so both `None` and a comment id of `0` take the create branch; only a
nonzero found id is updated in place (`newId` is the server-assigned id
of a creation). -/
def upsert (comments : List Comment) (newId : Nat) (body : String) :
    List Comment × UpsertAction :=
  match find_existing_summary_comment comments with
  | some cid =>
    if cid = 0 then (create_comment comments newId body, UpsertAction.created)
    else (update_comment comments cid body, UpsertAction.updated)
  | none => (create_comment comments newId body, UpsertAction.created)

/-- The marker-tagged comments currently stored. -/
def markerComments (comments : List Comment) : List Comment :=
  comments.filter (fun c => containsMarker c.body)

/-- The pull-request snapshot fields `format_summary` reads. -/
structure Snapshot where
  title : String
  author : String
  headRef : String
  baseRef : String
  additions : Nat
  deletions : Nat
  changedFiles : Nat
  body : String
  deriving DecidableEq, Repr

/-- The `plural` helper of `post_pr_summar.py`. -/
def plural (n : Nat) (word : String) : String :=
  toString n ++ " " ++ word ++ (if n == 1 then "" else "s")

/-- `format_summary`: the deterministic comment body built from a
snapshot, the fetched commit list and the fetched file list. Sections
with no content are omitted entirely. -/
def format_summary (pr : Snapshot) (commits : List CommitInfo)
    (files : List FileChange) : String :=
  let recent := recent_commits commits
  let top := top_files files
  let linked := extract_linked pr.body
  let headerLines : List String :=
    [MARKER, "### PR Summary",
     "**Title:** " ++ pr.title,
     "**Author:** @" ++ pr.author,
     "**Branch:** `" ++ pr.headRef ++ "` → `" ++ pr.baseRef ++ "`",
     "**Scope:** " ++ plural pr.changedFiles "file" ++ ", " ++
       plural commits.length "commit" ++ ", **+" ++ toString pr.additions ++
       " / -" ++ toString pr.deletions ++ "** (" ++
       size_label pr.additions pr.deletions ++ ")"]
  let commitLines := if recent.isEmpty then [] else ["", "#### Recent commits"] ++ recent
  let fileLines := if top.isEmpty then [] else ["", "#### Most-changed files"] ++ top
  let linkedLines :=
    if linked.isEmpty then []
    else ["", "#### Linked issues", "- " ++ String.intercalate " " linked]
  String.intercalate "\n"
    (headerLines ++ commitLines ++ fileLines ++ linkedLines ++
      ["", "_I’ll update this comment when new commits are pushed._"])


/-! ## General helper lemmas -/

theorem find?_congr_pred {α : Type*} {p q : α → Bool} :
    ∀ {l : List α}, (∀ x ∈ l, p x = q x) → l.find? p = l.find? q := by
  intro l
  induction l with
  | nil => intro _; rfl
  | cons a l ih =>
    intro h
    have ha := h a (List.mem_cons_self a l)
    by_cases hpa : p a = true
    · rw [List.find?_cons_of_pos _ hpa, List.find?_cons_of_pos _ (ha ▸ hpa)]
    · rw [List.find?_cons_of_neg _ (by simpa using hpa),
        List.find?_cons_of_neg _ (by rw [← ha]; simpa using hpa)]
      exact ih fun x hx => h x (List.mem_cons_of_mem a hx)

theorem find?_eq_some_of_unique {α : Type*} {p : α → Bool} {x : α} :
    ∀ {l : List α}, x ∈ l → p x = true → (∀ y ∈ l, p y = true → y = x) →
      l.find? p = some x := by
  intro l
  induction l with
  | nil => intro h; cases h
  | cons a l ih =>
    intro hmem hpx huniq
    by_cases hpa : p a = true
    · rw [List.find?_cons_of_pos _ hpa, huniq a (List.mem_cons_self a l) hpa]
    · rw [List.find?_cons_of_neg _ (by simpa using hpa)]
      have hx : x ∈ l := by
        rcases List.mem_cons.mp hmem with h | h
        · exact absurd (h ▸ hpx) hpa
        · exact h
      exact ih hx hpx fun y hy hpy => huniq y (List.mem_cons_of_mem a hy) hpy

/-! ## C4: size-label thresholds -/

/-- **C4**: for every total `t = additions + deletions`, the size label is
`"🟩 small"` iff `t ≤ 200`, `"🟨 medium"` iff `200 < t ≤ 500`,
`"🟧 large"` iff `500 < t ≤ 1000`, and `"🟥 huge"` iff `t > 1000`. -/
theorem size_label_thresholds (a d : Nat) :
    (size_label a d = "🟩 small" ↔ a + d ≤ 200) ∧
    (size_label a d = "🟨 medium" ↔ 200 < a + d ∧ a + d ≤ 500) ∧
    (size_label a d = "🟧 large" ↔ 500 < a + d ∧ a + d ≤ 1000) ∧
    (size_label a d = "🟥 huge" ↔ 1000 < a + d) := by
  unfold size_label
  dsimp only
  split_ifs with h1 h2 h3
  · exact ⟨iff_of_false (by decide) (by omega), iff_of_false (by decide) (by omega),
      iff_of_false (by decide) (by omega), iff_of_true rfl (by omega)⟩
  · exact ⟨iff_of_false (by decide) (by omega), iff_of_false (by decide) (by omega),
      iff_of_true rfl (by omega), iff_of_false (by decide) (by omega)⟩
  · exact ⟨iff_of_false (by decide) (by omega), iff_of_true rfl (by omega),
      iff_of_false (by decide) (by omega), iff_of_false (by decide) (by omega)⟩
  · exact ⟨iff_of_true rfl (by omega), iff_of_false (by decide) (by omega),
      iff_of_false (by decide) (by omega), iff_of_false (by decide) (by omega)⟩

/-! ## C9: formatter determinism -/

/-- **C9**: the Summary Formatter is deterministic — two invocations of
`format_summary` on equal snapshots, commit lists and file lists produce
the same comment body (it is a pure function of those inputs; no
timestamps or random ordering enter the construction). -/
theorem format_summary_deterministic (pr₁ pr₂ : Snapshot)
    (c₁ c₂ : List CommitInfo) (f₁ f₂ : List FileChange)
    (hpr : pr₁ = pr₂) (hc : c₁ = c₂) (hf : f₁ = f₂) :
    format_summary pr₁ c₁ f₁ = format_summary pr₂ c₂ f₂ := by
  rw [hpr, hc, hf]

theorem format_summary_deterministic_witness :
    format_summary ⟨"T", "alice", "h", "m", 300, 50, 3, "fixes #12"⟩
        [⟨"abcdef1234", "msg"⟩] [⟨"a", "modified", 1, 2⟩] =
      format_summary ⟨"T", "alice", "h", "m", 300, 50, 3, "fixes #12"⟩
        [⟨"abcdef1234", "msg"⟩] [⟨"a", "modified", 1, 2⟩] :=
  format_summary_deterministic _ _ _ _ _ _ rfl rfl rfl

/-! ## C10: explicit PR-number hint parsing -/

/-- **C10**: in the push-comment script, a supplied (nonempty) PR-number
hint that does not parse as an integer is silently discarded and
resolution falls back to the search over open pull requests; when the
hint parses, it is used directly with no API search. -/
theorem pr_hint_fallback (s : String) (prs : List PRInfo)
    (sha branch : String) (hs : s ≠ "") :
    (int_of_py s = none →
      find_open_pr_for_branch_or_sha (some s) prs sha branch =
        Resolution.search (searchPRs prs sha branch)) ∧
    (∀ n, int_of_py s = some n →
      find_open_pr_for_branch_or_sha (some s) prs sha branch =
        Resolution.hint n) := by
  constructor
  · intro h
    simp [find_open_pr_for_branch_or_sha, hs, h]
  · intro n h
    simp [find_open_pr_for_branch_or_sha, hs, h]

theorem pr_hint_fallback_witness :
    ("abc" : String) ≠ "" ∧ int_of_py "abc" = none ∧ int_of_py "42" = some 42 ∧
    find_open_pr_for_branch_or_sha (some "abc") [⟨5, "s", "b"⟩] "s" "x" =
      Resolution.search (searchPRs [⟨5, "s", "b"⟩] "s" "x") ∧
    find_open_pr_for_branch_or_sha (some "42") [⟨5, "s", "b"⟩] "s" "x" =
      Resolution.hint 42 :=
  ⟨by decide, by decide, by decide,
    (pr_hint_fallback "abc" [⟨5, "s", "b"⟩] "s" "x" (by decide)).1 (by decide),
    (pr_hint_fallback "42" [⟨5, "s", "b"⟩] "s" "x" (by decide)).2 42 (by decide)⟩

/-! ## C3: PR resolution precedence -/

/-- **C3**: when one open PR matches the target commit SHA (and is the only
SHA match) and a different PR matches the target branch, resolution
returns the SHA-matching PR; when no PR matches by SHA or branch, the
search returns `none` and the push-comment run skips benignly
(a non-fatal outcome). -/
theorem pr_resolution_precedence (prs : List PRInfo) (sha branch : String)
    (p q : PRInfo) :
    (p ∈ prs → p.headSha = sha → (∀ x ∈ prs, x.headSha = sha → x = p) →
      q ∈ prs → q.headRef = branch → q ≠ p →
      searchPRs prs sha branch = some p.number) ∧
    ((∀ x ∈ prs, x.headSha ≠ sha ∧ x.headRef ≠ branch) →
      searchPRs prs sha branch = none ∧
      comment_on_push_main none prs sha branch = PushResult.skipped) := by
  constructor
  · intro hp hpsha huniq _ _ _
    unfold searchPRs
    rw [find?_eq_some_of_unique hp (by simpa using hpsha)
      (fun y hy hpy => huniq y hy (by simpa using hpy))]
  · intro hall
    have h1 : prs.find? (fun x => x.headSha == sha) = none :=
      List.find?_eq_none.mpr fun x hx => by simpa using (hall x hx).1
    have h2 : prs.find? (fun x => x.headRef == branch) = none :=
      List.find?_eq_none.mpr fun x hx => by simpa using (hall x hx).2
    refine ⟨?_, ?_⟩
    · unfold searchPRs
      rw [h1, h2]
      rfl
    · simp [comment_on_push_main, find_open_pr_for_branch_or_sha,
        resolutionValue, searchPRs, h1, h2]

theorem pr_resolution_precedence_witness :
    searchPRs [⟨5, "aaa", "feat"⟩, ⟨9, "shaX", "br"⟩] "shaX" "feat" = some 9 ∧
    searchPRs [⟨5, "aaa", "feat"⟩] "zzz" "nope" = none ∧
    comment_on_push_main none [⟨5, "aaa", "feat"⟩] "zzz" "nope" =
      PushResult.skipped := by
  refine ⟨?_, ?_, ?_⟩
  · exact (pr_resolution_precedence [⟨5, "aaa", "feat"⟩, ⟨9, "shaX", "br"⟩]
      "shaX" "feat" ⟨9, "shaX", "br"⟩ ⟨5, "aaa", "feat"⟩).1
      (by decide) rfl (by decide) (by decide) rfl (by decide)
  · exact ((pr_resolution_precedence [⟨5, "aaa", "feat"⟩] "zzz" "nope"
      ⟨5, "aaa", "feat"⟩ ⟨5, "aaa", "feat"⟩).2 (by decide)).1
  · exact ((pr_resolution_precedence [⟨5, "aaa", "feat"⟩] "zzz" "nope"
      ⟨5, "aaa", "feat"⟩ ⟨5, "aaa", "feat"⟩).2 (by decide)).2

/-! ## C2: retry/backoff classification -/

/-- **C2**: with maximum attempt count 3, the response sequence
[500, 500, 200] yields success on exactly the third attempt and
[500, 500, 500] a terminal HTTP failure after exactly three attempts, in
both scripts; a single 404 fails immediately on attempt 1 with no retry;
over real HTTP status codes (≤ 599) both scripts classify exactly the
5xx range as retryable; any non-retryable status fails on attempt 1; a
retryable status repeated forever exhausts all three attempts; and
network errors are retried until attempts are exhausted. -/
theorem retry_backoff_policy :
    (gh_api_summary (respSeq [Resp.httpError 500, Resp.httpError 500, Resp.ok]) 3 =
        Outcome.success 3 ∧
      gh_api_push (respSeq [Resp.httpError 500, Resp.httpError 500, Resp.ok]) 3 =
        Outcome.success 3) ∧
    (gh_api_summary
        (respSeq [Resp.httpError 500, Resp.httpError 500, Resp.httpError 500]) 3 =
        Outcome.raisedHttp 3 500 ∧
      gh_api_push
        (respSeq [Resp.httpError 500, Resp.httpError 500, Resp.httpError 500]) 3 =
        Outcome.raisedHttp 3 500) ∧
    (gh_api_summary (respSeq [Resp.httpError 404]) 3 = Outcome.raisedHttp 1 404 ∧
      gh_api_push (respSeq [Resp.httpError 404]) 3 = Outcome.raisedHttp 1 404) ∧
    (∀ c : Nat, c ≤ 599 →
      retryableSummary c = retryablePush c ∧
      (retryableSummary c = true ↔ 500 ≤ c)) ∧
    (∀ c : Nat, retryableSummary c = false →
      gh_api_summary (respSeq [Resp.httpError c]) 3 = Outcome.raisedHttp 1 c) ∧
    (∀ c : Nat, retryablePush c = false →
      gh_api_push (respSeq [Resp.httpError c]) 3 = Outcome.raisedHttp 1 c) ∧
    (∀ c : Nat, retryableSummary c = true →
      gh_api_summary (fun _ => Resp.httpError c) 3 = Outcome.raisedHttp 3 c) ∧
    gh_api_summary (fun _ => Resp.netError) 3 = Outcome.raisedNet 3 ∧
    gh_api_summary (respSeq [Resp.netError, Resp.ok]) 3 = Outcome.success 2 := by
  refine ⟨⟨by decide, by decide⟩, ⟨by decide, by decide⟩, ⟨by decide, by decide⟩,
    ?_, ?_, ?_, ?_, by decide, by decide⟩
  · intro c hc
    constructor
    · have h6 : decide (c < 600) = true := by simp; omega
      simp [retryableSummary, retryablePush, h6]
    · simp only [retryableSummary, Bool.and_eq_true, decide_eq_true_eq]
      omega
  · intro c h
    simp [gh_api_summary, ghApiGo, respSeq, h]
  · intro c h
    simp [gh_api_push, ghApiGo, respSeq, h]
  · intro c h
    simp [gh_api_summary, ghApiGo, h]

theorem retry_backoff_policy_witness :
    (404 : Nat) ≤ 599 ∧ retryableSummary 404 = false ∧
    retryablePush 404 = false ∧ retryableSummary 503 = true ∧
    (retryableSummary 404 = retryablePush 404 ∧
      (retryableSummary 404 = true ↔ 500 ≤ 404)) ∧
    gh_api_summary (respSeq [Resp.httpError 404]) 3 = Outcome.raisedHttp 1 404 ∧
    gh_api_push (respSeq [Resp.httpError 404]) 3 = Outcome.raisedHttp 1 404 ∧
    gh_api_summary (fun _ => Resp.httpError 503) 3 = Outcome.raisedHttp 3 503 :=
  ⟨by decide, by decide, by decide, by decide,
    retry_backoff_policy.2.2.2.1 404 (by decide),
    retry_backoff_policy.2.2.2.2.1 404 (by decide),
    retry_backoff_policy.2.2.2.2.2.1 404 (by decide),
    retry_backoff_policy.2.2.2.2.2.2.1 503 (by decide)⟩

/-! ## C6: pagination completeness -/

theorem paginateAux_eq {α : Type*} (items : List α) :
    ∀ (fuel page : Nat), 1 ≤ page →
      (items.length - (page - 1) * 100) / 100 + 1 ≤ fuel →
      paginateAux items page fuel = items.drop ((page - 1) * 100) := by
  intro fuel
  induction fuel with
  | zero => intro page _ h; omega
  | succ fuel ih =>
    intro page hpage hfuel
    have hlen : (servePage items page).length =
        min 100 (items.length - (page - 1) * 100) := by
      simp [servePage]
    rw [paginateAux]
    by_cases h0 : items.length ≤ (page - 1) * 100
    · rw [if_pos (by rw [hlen]; omega)]
      exact (List.drop_eq_nil_of_le h0).symm
    · by_cases hshort : items.length - (page - 1) * 100 < 100
      · rw [if_neg (by rw [hlen]; omega), if_pos (by rw [hlen]; omega)]
        exact List.take_of_length_le (by simp; omega)
      · rw [if_neg (by rw [hlen]; omega), if_neg (by rw [hlen]; omega)]
        rw [ih (page + 1) (by omega) (by omega)]
        have h100 : (page + 1 - 1) * 100 = (page - 1) * 100 + 100 := by omega
        rw [h100, servePage, ← List.drop_drop 100 ((page - 1) * 100) items]
        exact List.take_append_drop 100 (items.drop ((page - 1) * 100))

theorem paginatePagesAux_eq {α : Type*} (items : List α) :
    ∀ (fuel page : Nat), 1 ≤ page →
      (items.length - (page - 1) * 100) / 100 + 1 ≤ fuel →
      paginatePagesAux items page fuel =
        List.range' page ((items.length - (page - 1) * 100) / 100 + 1) := by
  intro fuel
  induction fuel with
  | zero => intro page _ h; omega
  | succ fuel ih =>
    intro page hpage hfuel
    have hlen : (servePage items page).length =
        min 100 (items.length - (page - 1) * 100) := by
      simp [servePage]
    rw [paginatePagesAux]
    by_cases hshort : items.length - (page - 1) * 100 < 100
    · have hdiv : (items.length - (page - 1) * 100) / 100 = 0 := by omega
      rw [hdiv]
      by_cases h0 : (servePage items page).length = 0
      · rw [if_pos h0]
        rfl
      · rw [if_neg h0, if_pos (by rw [hlen]; omega)]
        rfl
    · rw [if_neg (by rw [hlen]; omega), if_neg (by rw [hlen]; omega)]
      rw [ih (page + 1) (by omega) (by omega)]
      have harith : (items.length - (page - 1) * 100) / 100 + 1 =
          ((items.length - (page + 1 - 1) * 100) / 100 + 1) + 1 := by omega
      rw [harith]
      rfl

/-- **C6**: the paginator traverses the whole underlying collection as one
sequence equal to it (so no duplicates and no gaps), requesting
consecutive page numbers 1, 2, …; it requests exactly
`length / 100 + 1` pages, every non-final page it sees is full (100
items) and the final page is short (fewer than 100 items, possibly
empty); in particular a 250-item collection is traversed completely with
page requests [1, 2, 3], terminating right after the 50-item third
page. -/
theorem pagination_traversal {α : Type*} (items : List α) :
    paginate items = items ∧
    paginatePages items = List.range' 1 (items.length / 100 + 1) ∧
    (∀ p ∈ (paginatePages items).dropLast, (servePage items p).length = 100) ∧
    (servePage items (items.length / 100 + 1)).length < 100 ∧
    (items.length = 250 →
      paginate items = items ∧ paginatePages items = [1, 2, 3] ∧
      (servePage items 3).length = 50) := by
  have hpag : paginate items = items := by
    have h := paginateAux_eq items (items.length / 100 + 1) 1 (le_refl 1) (by omega)
    simpa [paginate] using h
  have hpages : paginatePages items = List.range' 1 (items.length / 100 + 1) := by
    have h := paginatePagesAux_eq items (items.length / 100 + 1) 1 (le_refl 1) (by omega)
    simp only [paginatePages, h]
    norm_num
  refine ⟨hpag, hpages, ?_, ?_, ?_⟩
  · intro p hp
    rw [hpages] at hp
    have hdl : (List.range' 1 (items.length / 100 + 1)).dropLast =
        List.range' 1 (items.length / 100) := by
      rw [List.range'_concat, List.dropLast_concat]
    rw [hdl, List.mem_range'] at hp
    obtain ⟨i, hi, rfl⟩ := hp
    simp only [servePage, List.length_take, List.length_drop]
    omega
  · simp only [servePage, List.length_take, List.length_drop]
    omega
  · intro h250
    refine ⟨hpag, ?_, ?_⟩
    · rw [hpages, h250]
      rfl
    · simp only [servePage, List.length_take, List.length_drop, h250]
      omega

theorem pagination_traversal_witness :
    (List.range 250).length = 250 ∧
    paginate (List.range 250) = List.range 250 ∧
    paginatePages (List.range 250) = [1, 2, 3] ∧
    (servePage (List.range 250) 3).length = 50 ∧
    (servePage (List.range 250) 1).length = 100 := by
  have h := pagination_traversal (List.range 250)
  have hlen : (List.range 250).length = 250 := by simp
  refine ⟨hlen, (h.2.2.2.2 hlen).1, (h.2.2.2.2 hlen).2.1, (h.2.2.2.2 hlen).2.2, ?_⟩
  exact h.2.2.1 1 (by rw [(h.2.2.2.2 hlen).2.1]; decide)

/-! ## C5: linked-issue extraction -/

theorem lexLe_total : ∀ (as bs : List Char),
    lexLe as bs = true ∨ lexLe bs as = true := by
  intro as
  induction as with
  | nil => intro bs; left; rfl
  | cons a as ih =>
    intro bs
    cases bs with
    | nil => right; rfl
    | cons b bs =>
      rcases lt_trichotomy a b with h | h | h
      · left; simp [lexLe, h]
      · subst h
        rcases ih bs with h' | h'
        · left; simp [lexLe, h']
        · right; simp [lexLe, h']
      · right; simp [lexLe, h]

theorem lexLe_trans : ∀ (as bs cs : List Char),
    lexLe as bs = true → lexLe bs cs = true → lexLe as cs = true := by
  intro as
  induction as with
  | nil => intro bs cs _ _; rfl
  | cons a as ih =>
    intro bs cs hab hbc
    cases bs with
    | nil => simp [lexLe] at hab
    | cons b bs =>
      cases cs with
      | nil => simp [lexLe] at hbc
      | cons c cs =>
        rcases lt_trichotomy a b with h1 | h1 | h1
        · rcases lt_trichotomy b c with h2 | h2 | h2
          · simp [lexLe, lt_trans h1 h2]
          · subst h2; simp [lexLe, h1]
          · have hnb : ¬b < c := asymm h2
            simp [lexLe, hnb, h2] at hbc
        · subst h1
          rcases lt_trichotomy a c with h2 | h2 | h2
          · simp [lexLe, h2]
          · subst h2
            simp only [lexLe, lt_irrefl, if_false] at hab hbc ⊢
            exact ih bs cs hab hbc
          · have hna : ¬a < c := asymm h2
            simp [lexLe, hna, h2] at hbc
        · have hna : ¬a < b := asymm h1
          simp [lexLe, hna, h1] at hab

/-- **C5** (counterexample to the claim as stated): on the body
`"fixes #12 and relates to #7, see #12"` the scan yields `["#12"]`, not
`["#12", "#7"]` — whitespace splitting leaves the token `"#7,"`, whose
trailing comma fails the all-digits test. -/
theorem linked_issue_counterexample :
    extract_linked "fixes #12 and relates to #7, see #12" ≠ ["#12", "#7"] ∧
    extract_linked "fixes #12 and relates to #7, see #12" = ["#12"] := by
  exact ⟨by decide, by decide⟩

/-- **C5** (amended): linked-issue extraction keeps exactly the
whitespace-separated tokens of the body that are `#` followed entirely by
digits, deduplicated and sorted lexicographically; on the body
`"fixes #12 and relates to #7, see #12"` it yields `["#12"]` (the token
`"#7,"` carries a trailing comma, so it is not collected). -/
theorem linked_issue_extraction (body : String) :
    (∀ t, t ∈ extract_linked body ↔
      t ∈ pySplit (pyReplaceNl body) ∧ isIssueToken t = true) ∧
    (extract_linked body).Nodup ∧
    (extract_linked body).Pairwise (fun a b => strLe a b = true) ∧
    extract_linked "fixes #12 and relates to #7, see #12" = ["#12"] := by
  refine ⟨?_, ?_, ?_, by decide⟩
  · intro t
    simp [extract_linked, List.mem_insertionSort, List.mem_dedup, List.mem_filter]
  · have hperm := List.perm_insertionSort (fun a b : String => strLe a b = true)
      ((pySplit (pyReplaceNl body)).filter isIssueToken).dedup
    exact hperm.nodup_iff.mpr (List.nodup_dedup _)
  · letI : IsTotal String (fun a b => strLe a b = true) :=
      ⟨fun a b => lexLe_total a.data b.data⟩
    letI : IsTrans String (fun a b => strLe a b = true) :=
      ⟨fun a b c => lexLe_trans a.data b.data c.data⟩
    exact List.sorted_insertionSort _ _

/-! ## C7: recent-commits section -/

/-- **C7**: the recent-commits section shows `min (number of commits) 10`
entries; its `i`-th displayed entry is the entry for the commit at
position `length - 1 - i` of the fetched list (so the last ten commits,
most-recent-first); an entry is the 7-character short SHA with the first
line of the message, the fixed placeholder `"(no message)"` standing in
when the message is empty. -/
theorem recent_commits_display (commits : List CommitInfo) :
    (recent_commits commits).length = min commits.length 10 ∧
    (∀ i, i < min commits.length 10 →
      (recent_commits commits)[i]? =
        some (commit_entry (commits.getD (commits.length - 1 - i) ⟨"", ""⟩))) ∧
    (∀ c : CommitInfo, c.message = "" →
      commit_entry c = "- `" ++ c.sha.take 7 ++ "` " ++ "(no message)") ∧
    (∀ c : CommitInfo, c.message ≠ "" →
      commit_entry c = "- `" ++ c.sha.take 7 ++ "` " ++ firstLine c.message) := by
  refine ⟨?_, ?_, ?_, ?_⟩
  · simp only [recent_commits, List.length_map, List.length_reverse,
      List.length_drop]
    omega
  · intro i hi
    simp only [recent_commits, List.getElem?_map]
    rw [List.getElem?_reverse (by simp only [List.length_drop]; omega),
      List.getElem?_drop]
    have hidx : commits.length - 10 +
        ((commits.drop (commits.length - 10)).length - 1 - i) =
        commits.length - 1 - i := by
      simp only [List.length_drop]
      omega
    rw [hidx]
    have hj : commits.length - 1 - i < commits.length := by omega
    rw [List.getElem?_eq_getElem hj]
    simp [List.getD_eq_getElem?_getD, List.getElem?_eq_getElem hj]
  · intro c hc
    simp only [commit_entry, hc, beq_self_eq_true, if_true]
    rw [show firstLine "(no message)" = "(no message)" from rfl]
  · intro c hc
    simp [commit_entry, hc]

theorem recent_commits_display_witness :
    (0 : Nat) <
      min ([⟨"abcdef1234", "first\nrest"⟩, ⟨"deadbeef99", ""⟩] :
        List CommitInfo).length 10 ∧
    (recent_commits [⟨"abcdef1234", "first\nrest"⟩, ⟨"deadbeef99", ""⟩])[0]? =
      some (commit_entry
        (([⟨"abcdef1234", "first\nrest"⟩, ⟨"deadbeef99", ""⟩] :
          List CommitInfo).getD
          (([⟨"abcdef1234", "first\nrest"⟩, ⟨"deadbeef99", ""⟩] :
            List CommitInfo).length - 1 - 0) ⟨"", ""⟩)) ∧
    (⟨"deadbeef99", ""⟩ : CommitInfo).message = "" ∧
    commit_entry ⟨"deadbeef99", ""⟩ =
      "- `" ++ ("deadbeef99" : String).take 7 ++ "` " ++ "(no message)" :=
  ⟨by decide,
    (recent_commits_display
      [⟨"abcdef1234", "first\nrest"⟩, ⟨"deadbeef99", ""⟩]).2.1 0 (by decide),
    by decide,
    (recent_commits_display
      [⟨"abcdef1234", "first\nrest"⟩, ⟨"deadbeef99", ""⟩]).2.2.1
      ⟨"deadbeef99", ""⟩ (by decide)⟩

/-! ## C8: most-changed-files ranking -/

/-- **C8**: the descending sort of the file list is a permutation of it,
ordered by combined additions+deletions descending, and stable — files
with any given change count appear in their original relative order; the
rendered section is the first 10 entries of that sort, so it has
`min (number of files) 10` entries and every shown file has at least the
change count of every file not shown. -/
theorem top_files_ranking (files : List FileChange) :
    (sortFilesDesc files).Perm files ∧
    (sortFilesDesc files).Pairwise
      (fun a b => changeCount b ≤ changeCount a) ∧
    (∀ n : Nat, (sortFilesDesc files).filter (fun f => changeCount f == n) =
      files.filter (fun f => changeCount f == n)) ∧
    top_files files = ((sortFilesDesc files).take 10).map file_entry ∧
    (top_files files).length = min files.length 10 ∧
    (∀ f ∈ (sortFilesDesc files).take 10, ∀ g ∈ (sortFilesDesc files).drop 10,
      changeCount g ≤ changeCount f) := by
  letI : IsTotal FileChange (fun a b => changeCount b ≤ changeCount a) :=
    ⟨fun a b => le_total (changeCount b) (changeCount a)⟩
  letI : IsTrans FileChange (fun a b => changeCount b ≤ changeCount a) :=
    ⟨fun a b c hab hbc => le_trans hbc hab⟩
  have hperm : (sortFilesDesc files).Perm files := List.perm_insertionSort _ _
  have hsorted : (sortFilesDesc files).Pairwise
      (fun a b => changeCount b ≤ changeCount a) :=
    List.sorted_insertionSort _ _
  refine ⟨hperm, hsorted, ?_, rfl, ?_, ?_⟩
  · intro n
    have hpair : (files.filter (fun f => changeCount f == n)).Pairwise
        (fun a b => changeCount b ≤ changeCount a) := by
      apply List.pairwise_of_forall_mem_list
      intro a ha b hb
      have ha' := (List.mem_filter.mp ha).2
      have hb' := (List.mem_filter.mp hb).2
      simp only [beq_iff_eq] at ha' hb'
      omega
    have hsub : (files.filter (fun f => changeCount f == n)).Sublist
        (sortFilesDesc files) :=
      List.sublist_insertionSort hpair (List.filter_sublist files)
    have hsub2 := hsub.filter (fun f => changeCount f == n)
    rw [List.filter_filter] at hsub2
    simp only [Bool.and_self] at hsub2
    have hlen : ((sortFilesDesc files).filter (fun f => changeCount f == n)).length =
        (files.filter (fun f => changeCount f == n)).length :=
      (hperm.filter _).length_eq
    exact (hsub2.eq_of_length hlen.symm).symm
  · simp only [top_files, sortFilesDesc, List.length_map, List.length_take,
      List.length_insertionSort]
    omega
  · intro f hf g hg
    have h := hsorted
    rw [← List.take_append_drop 10 (sortFilesDesc files)] at h
    exact (List.pairwise_append.mp h).2.2 f hf g hg

theorem top_files_ranking_witness :
    (⟨"10", "modified", 10, 0⟩ : FileChange) ∈
      (sortFilesDesc ((List.range 11).map
        (fun i => (⟨toString i, "modified", i, 0⟩ : FileChange)))).take 10 ∧
    (⟨"0", "modified", 0, 0⟩ : FileChange) ∈
      (sortFilesDesc ((List.range 11).map
        (fun i => (⟨toString i, "modified", i, 0⟩ : FileChange)))).drop 10 ∧
    changeCount ⟨"0", "modified", 0, 0⟩ ≤ changeCount ⟨"10", "modified", 10, 0⟩ ∧
    (sortFilesDesc [⟨"a", "modified", 1, 2⟩, ⟨"b", "added", 3, 0⟩]).filter
        (fun f => changeCount f == 3) =
      ([⟨"a", "modified", 1, 2⟩, ⟨"b", "added", 3, 0⟩] :
        List FileChange).filter (fun f => changeCount f == 3) := by
  refine ⟨by decide, by decide, ?_, ?_⟩
  · exact (top_files_ranking ((List.range 11).map
      (fun i => (⟨toString i, "modified", i, 0⟩ : FileChange)))).2.2.2.2.2
      ⟨"10", "modified", 10, 0⟩ (by decide) ⟨"0", "modified", 0, 0⟩ (by decide)
  · exact (top_files_ranking [⟨"a", "modified", 1, 2⟩, ⟨"b", "added", 3, 0⟩]).2.2.1 3

/-! ## C1: marker-comment upsert reconciliation -/

/-- **C1** (counterexample to the claim as stated): `main` tests the found
comment id with Python truthiness (`if existing_id:`), so a marker
comment whose server id is `0` takes the create branch — on a pull
request that already carries such a marker comment, `upsert` creates a
second marker comment (two comments, two marker comments) instead of
updating in place. -/
theorem upsert_zero_id_counterexample :
    markerComments [(⟨0, "<!-- pr-summary-bot --> old"⟩ : Comment)] ≠ [] ∧
    (upsert [⟨0, "<!-- pr-summary-bot --> old"⟩] 99
      "<!-- pr-summary-bot --> new").2 = UpsertAction.created ∧
    (upsert [⟨0, "<!-- pr-summary-bot --> old"⟩] 99
      "<!-- pr-summary-bot --> new").1.length = 2 ∧
    (markerComments (upsert [⟨0, "<!-- pr-summary-bot --> old"⟩] 99
      "<!-- pr-summary-bot --> new").1).length = 2 := by
  exact ⟨by decide, by decide, by decide, by decide⟩

/-- **C1** (amended): if a pull request already carries a marker-tagged
comment and no stored comment has server id `0` (Python's `if
existing_id:` truthiness sends a found id of `0` to the create branch;
the forge never issues id `0`), `upsert` never creates a second marker
comment — it takes the update branch and leaves both the number of
comments and the number of marker comments unchanged; when exactly one
marker comment exists, running `upsert` twice in succession with the
same marker-carrying body leaves exactly one marker comment, whose body
is that latest text, and the second run is an update of the same
comment that changes nothing. -/
theorem upsert_reconciliation (s : List Comment) (n₁ n₂ : Nat) (b : String)
    (hids : (s.map Comment.id).Nodup) (hpos : ∀ c ∈ s, c.id ≠ 0)
    (hb : containsMarker b = true) :
    (markerComments s ≠ [] →
      (upsert s n₁ b).2 = UpsertAction.updated ∧
      (upsert s n₁ b).1.length = s.length ∧
      (markerComments (upsert s n₁ b).1).length = (markerComments s).length) ∧
    ((markerComments s).length = 1 →
      markerComments (upsert s n₁ b).1 =
        [⟨(find_existing_summary_comment s).getD 0, b⟩] ∧
      upsert (upsert s n₁ b).1 n₂ b =
        ((upsert s n₁ b).1, UpsertAction.updated)) := by
  cases hfd : s.reverse.find? (fun c => containsMarker c.body) with
  | none =>
    have hmc : markerComments s = [] := by
      apply List.filter_eq_nil_iff.mpr
      intro a ha
      have h := List.find?_eq_none.mp hfd a (List.mem_reverse.mpr ha)
      simpa using h
    constructor
    · intro hne
      exact absurd hmc hne
    · intro h1
      rw [hmc] at h1
      simp at h1
  | some c₀ =>
    have hp0 : containsMarker c₀.body = true := by
      simpa using List.find?_some hfd
    have hmem : c₀ ∈ s := List.mem_reverse.mp (List.mem_of_find?_eq_some hfd)
    have hfe : find_existing_summary_comment s = some c₀.id := by
      unfold find_existing_summary_comment
      rw [hfd]
      rfl
    have hid0 : ¬c₀.id = 0 := hpos c₀ hmem
    have hu : upsert s n₁ b = (update_comment s c₀.id b, UpsertAction.updated) := by
      unfold upsert
      rw [hfe]
      show (if c₀.id = 0 then (create_comment s n₁ b, UpsertAction.created)
          else (update_comment s c₀.id b, UpsertAction.updated)) =
        (update_comment s c₀.id b, UpsertAction.updated)
      rw [if_neg hid0]
    have hfcong : ∀ c ∈ s,
        containsMarker (if c.id = c₀.id then (⟨c.id, b⟩ : Comment) else c).body =
          containsMarker c.body := by
      intro c hc
      by_cases hcid : c.id = c₀.id
      · have hceq : c = c₀ := List.inj_on_of_nodup_map hids hc hmem hcid
        subst hceq
        simp [hb, hp0]
      · rw [if_neg hcid]
    have hmap : markerComments (update_comment s c₀.id b) =
        List.map (fun c => if c.id = c₀.id then (⟨c.id, b⟩ : Comment) else c)
          (markerComments s) := by
      unfold markerComments update_comment
      rw [List.filter_map]
      congr 1
      apply List.filter_congr
      intro c hc
      simpa [Function.comp] using hfcong c hc
    have hcount : (markerComments (update_comment s c₀.id b)).length =
        (markerComments s).length := by
      rw [hmap, List.length_map]
    have hfe2 : find_existing_summary_comment (update_comment s c₀.id b) =
        some c₀.id := by
      unfold find_existing_summary_comment update_comment
      rw [← List.map_reverse, List.find?_map]
      have hcg : s.reverse.find?
          ((fun c => containsMarker c.body) ∘
            (fun c => if c.id = c₀.id then (⟨c.id, b⟩ : Comment) else c)) =
          s.reverse.find? (fun c => containsMarker c.body) :=
        find?_congr_pred fun x hx => by
          simpa [Function.comp] using hfcong x (List.mem_reverse.mp hx)
      rw [hcg, hfd]
      simp
    have hupd2 : update_comment (update_comment s c₀.id b) c₀.id b =
        update_comment s c₀.id b := by
      unfold update_comment
      rw [List.map_map]
      apply List.map_congr_left
      intro c _
      by_cases hcid : c.id = c₀.id
      · simp [Function.comp, hcid]
      · simp [Function.comp, hcid]
    constructor
    · intro _
      rw [hu]
      refine ⟨rfl, ?_, hcount⟩
      simp [update_comment]
    · intro h1
      obtain ⟨m, hm⟩ := List.length_eq_one.mp h1
      have hc₀mem : c₀ ∈ markerComments s := List.mem_filter.mpr ⟨hmem, hp0⟩
      rw [hm] at hc₀mem
      have hc₀m : c₀ = m := by simpa using hc₀mem
      constructor
      · rw [hu, hfe]
        show markerComments (update_comment s c₀.id b) = [⟨c₀.id, b⟩]
        rw [hmap, hm, ← hc₀m]
        simp
      · rw [hu]
        show upsert (update_comment s c₀.id b) n₂ b = _
        unfold upsert
        rw [hfe2]
        show (if c₀.id = 0 then
            (create_comment (update_comment s c₀.id b) n₂ b,
              UpsertAction.created)
          else (update_comment (update_comment s c₀.id b) c₀.id b,
            UpsertAction.updated)) =
          ((update_comment s c₀.id b, UpsertAction.updated).1,
            UpsertAction.updated)
        rw [if_neg hid0, hupd2]

theorem upsert_reconciliation_witness :
    (([⟨1, "hello"⟩, ⟨2, "<!-- pr-summary-bot --> old"⟩] :
        List Comment).map Comment.id).Nodup ∧
    (∀ c ∈ ([⟨1, "hello"⟩, ⟨2, "<!-- pr-summary-bot --> old"⟩] :
      List Comment), c.id ≠ 0) ∧
    containsMarker "<!-- pr-summary-bot --> new" = true ∧
    markerComments [⟨1, "hello"⟩, ⟨2, "<!-- pr-summary-bot --> old"⟩] ≠ [] ∧
    (markerComments [⟨1, "hello"⟩,
      ⟨2, "<!-- pr-summary-bot --> old"⟩]).length = 1 ∧
    (upsert [⟨1, "hello"⟩, ⟨2, "<!-- pr-summary-bot --> old"⟩] 99
      "<!-- pr-summary-bot --> new").2 = UpsertAction.updated ∧
    markerComments (upsert [⟨1, "hello"⟩, ⟨2, "<!-- pr-summary-bot --> old"⟩]
        99 "<!-- pr-summary-bot --> new").1 =
      [⟨(find_existing_summary_comment
          [⟨1, "hello"⟩, ⟨2, "<!-- pr-summary-bot --> old"⟩]).getD 0,
        "<!-- pr-summary-bot --> new"⟩] ∧
    upsert (upsert [⟨1, "hello"⟩, ⟨2, "<!-- pr-summary-bot --> old"⟩] 99
        "<!-- pr-summary-bot --> new").1 100 "<!-- pr-summary-bot --> new" =
      ((upsert [⟨1, "hello"⟩, ⟨2, "<!-- pr-summary-bot --> old"⟩] 99
        "<!-- pr-summary-bot --> new").1, UpsertAction.updated) := by
  have h := upsert_reconciliation
    [⟨1, "hello"⟩, ⟨2, "<!-- pr-summary-bot --> old"⟩] 99 100
    "<!-- pr-summary-bot --> new" (by decide) (by decide) (by decide)
  exact ⟨by decide, by decide, by decide, by decide, by decide,
    (h.1 (by decide)).1, (h.2 (by decide)).1, (h.2 (by decide)).2⟩

end PRBot
